import Mathlib

/-!
Shallow embedding of `flexcli.py` (class `DynamicCLI`): a command registry
with aliases and docs, a resolver, a sync/async executor boundary, and the
`run_async` dispatch loop. Python dicts are modelled as insertion-ordered
association lists with unique keys; handler bodies are modelled as functions
from the argument token list to an outcome (normal return, or a raised
exception carried as its message text, which is what the `except Exception`
boundary in `run_async` observes). `print` calls are modelled by collecting
the printed strings in order; mutation is modelled by explicit state passing,
so operations that can mutate the object (the listing cache) return the new
state alongside their value, and `register_command` returns the new state
together with the raised error message, if any, since the Python method's
mutations persist even when it raises.
-/

namespace FlexCLI

/-- Outcome of running a handler body: normal completion, or a raised
exception carried as the text that `str(e)` would produce. -/
inductive HandlerRes where
  | ok : HandlerRes
  | err : String → HandlerRes
deriving DecidableEq

/-- A registered handler: the framework passes the argument tokens through
verbatim (`handler(*args)`), so a handler is a function of the token list.
Synchronous and asynchronous handlers behave identically at this boundary
(the single cooperative scheduler runs one handler to completion), so one
type models both. -/
structure Handler where
  run : List String → HandlerRes

/-- Association-list lookup, the embedding of `d.get(k)` / `d[k]` on a
Python dict with string keys. -/
def alookup {α : Type} (k : String) : List (String × α) → Option α
  | [] => none
  | p :: rest => if p.1 = k then some p.2 else alookup k rest

/-- The embedding of `k in d` on a Python dict. -/
def hasKey {α : Type} (k : String) (l : List (String × α)) : Bool :=
  (alookup k l).isSome

/-- The embedding of `d[k] = v` on a Python dict: update in place if the key
exists, else append (insertion order preserved). -/
def dinsert {α : Type} (k : String) (v : α) : List (String × α) → List (String × α)
  | [] => [(k, v)]
  | p :: rest => if p.1 = k then (k, v) :: rest else p :: dinsert k v rest

/-- The keys of a dict, in insertion order (`list(d.keys())`). -/
def keysOf {α : Type} (l : List (String × α)) : List String := l.map Prod.fst

/-- Code-point lexicographic ≤ on character lists: the order Python's `<` on
`str` induces (both sides are sequences of Unicode code points). -/
def charsLe : List Char → List Char → Bool
  | [], _ => true
  | _ :: _, [] => false
  | c :: cs, d :: ds =>
    if c.toNat < d.toNat then true
    else if d.toNat < c.toNat then false
    else charsLe cs ds

/-- Code-point lexicographic ≤ on strings. -/
def strLe (a b : String) : Bool := charsLe a.data b.data

/-- Whether the first character list begins with the second. -/
def startsWithChars : List Char → List Char → Bool
  | _, [] => true
  | [], _ :: _ => false
  | c :: cs, d :: ds => if c.toNat = d.toNat then startsWithChars cs ds else false

/-- The embedding of Python's `str.startswith`: ordinal, case-sensitive
prefix test on the code-point sequences. -/
def strStartsWith (s p : String) : Bool := startsWithChars s.data p.data

/-- Insert a string into an already-sorted list, keeping it sorted. -/
def insertSorted (x : String) : List String → List String
  | [] => [x]
  | y :: ys => if strLe x y then x :: y :: ys else y :: insertSorted x ys

/-- The embedding of Python's `sorted` on a list of strings: on a total order
with equality as equivalence the sorted output is unique, so insertion sort
computes exactly what `sorted` returns (code-point lexicographic order). -/
def sortStrings (l : List String) : List String := l.foldr insertSorted []

/-- The state of a `DynamicCLI` object: its five instance attributes from
`__init__` (lines 18-23 of `flexcli.py`). -/
structure DynamicCLI where
  commands : List (String × Handler)
  async_commands : List (String × Handler)
  alias_map : List (String × String)
  docs : List (String × String)
  all_commands_cached : Option (List String)

/-- `DynamicCLI.__init__`: every table empty, no cache. -/
def initCLI : DynamicCLI := ⟨[], [], [], [], none⟩

/-- `doc or "No description provided."` (line 51): Python `or` takes the
default both for `None` and for the falsy empty string. -/
def docOrDefault (doc : Option String) : String :=
  match doc with
  | some d => if d = "" then "No description provided." else d
  | none => "No description provided."

/-- Lines 46-49 of `register_command`: install the handler under its primary
name, in `async_commands` when `async_handler` else in `commands`. -/
def installHandler (cli : DynamicCLI) (name : String) (handler : Handler)
    (async_handler : Bool) : DynamicCLI :=
  if async_handler then
    { cli with async_commands := cli.async_commands ++ [(name, handler)] }
  else
    { cli with commands := cli.commands ++ [(name, handler)] }

/-- Line 51 of `register_command`: `self.docs[name] = doc or "..."`. -/
def installDoc (cli : DynamicCLI) (name : String) (doc : Option String) : DynamicCLI :=
  { cli with docs := dinsert name (docOrDefault doc) cli.docs }

/-- Lines 53-57 of `register_command`: the alias loop. Each alias is checked
against the current tables (which already hold the new command and the
previously installed aliases of this very call) and installed; a collision
raises `ValueError` at once, leaving the aliases already installed in place.
The Python argument is a `set`, whose iteration order is unspecified; the
list argument here ranges over every possible iteration order. -/
def registerAliases (cli : DynamicCLI) (name : String) :
    List String → DynamicCLI × Option String
  | [] => (cli, none)
  | a :: rest =>
    if hasKey a cli.commands || hasKey a cli.async_commands || hasKey a cli.alias_map then
      (cli, some ("Alias '" ++ a ++ "' conflicts with an existing command or alias."))
    else
      registerAliases { cli with alias_map := cli.alias_map ++ [(a, name)] } name rest

/-- `register_command` (lines 25-60). Returns the object state after the call
together with the raised `ValueError` message, if any: the Python method
mutates `self` before it can raise on an alias collision, and the cache
invalidation on line 60 runs only when no exception was raised. -/
def register_command (cli : DynamicCLI) (name : String) (handler : Handler)
    (async_handler : Bool) (aliases : List String) (doc : Option String) :
    DynamicCLI × Option String :=
  if hasKey name cli.commands || hasKey name cli.async_commands
      || hasKey name cli.alias_map then
    (cli, some ("Command or alias '" ++ name ++ "' is already registered."))
  else
    let res := registerAliases (installDoc (installHandler cli name handler async_handler)
      name doc) name aliases
    match res.2 with
    | some e => (res.1, some e)
    | none => ({ res.1 with all_commands_cached := none }, none)

/-- `_resolve_command` (lines 62-74): the name itself when it is a primary
command (sync or async), else the alias table, else `None`. -/
def resolve_command (cli : DynamicCLI) (command_name : String) : Option String :=
  if hasKey command_name cli.commands || hasKey command_name cli.async_commands then
    some command_name
  else
    alookup command_name cli.alias_map

/-- `list_commands` (lines 84-94): the sorted primary names, lazily cached in
`_all_commands_cached`; returns the list and the (possibly cache-filled)
object state. -/
def list_commands (cli : DynamicCLI) : List String × DynamicCLI :=
  match cli.all_commands_cached with
  | some l => (l, cli)
  | none =>
    let l := sortStrings (keysOf cli.commands ++ keysOf cli.async_commands)
    (l, { cli with all_commands_cached := some l })

/-- `get_command_aliases` (lines 96-106): the aliases whose target is the
given name, in alias-table insertion order. -/
def get_command_aliases (cli : DynamicCLI) (command_name : String) : List String :=
  (cli.alias_map.filter (fun p => p.2 == command_name)).map Prod.fst

/-- `complete_command` (lines 108-122): primary names (through
`list_commands`, hence through the cache) and aliases starting with the
prefix, sorted; returns the suggestions and the (possibly cache-filled)
object state. -/
def complete_command (cli : DynamicCLI) (pre : String) : List String × DynamicCLI :=
  let r := list_commands cli
  (sortStrings ((r.1.filter (fun c => strStartsWith c pre))
    ++ ((keysOf r.2.alias_map).filter (fun a => strStartsWith a pre))), r.2)

/-- `_format_aliases` (lines 138-142). -/
def format_aliases (cli : DynamicCLI) (command_name : String) : String :=
  let aliases := get_command_aliases cli command_name
  if aliases.isEmpty then ""
  else " (aliases: " ++ String.intercalate ", " aliases ++ ")"

/-- One line of the global help body (line 130). -/
def helpLine (cli : DynamicCLI) (cmd : String) : String :=
  "  " ++ cmd ++ " " ++ (if hasKey cmd cli.async_commands then "(async)" else "(sync)")
    ++ format_aliases cli cmd

/-- `show_help` (lines 124-131): the printed lines in order, and the object
state (the `list_commands` call inside may fill the cache). -/
def show_help (cli : DynamicCLI) : List String × DynamicCLI :=
  let r := list_commands cli
  (("Available commands:" :: r.1.map (helpLine r.2))
    ++ ["\nUse '<command> --help' for details about a specific command."], r.2)

/-- `show_command_help` (lines 133-136): the one printed line. -/
def show_command_help (cli : DynamicCLI) (command_name : String) : String :=
  "Help for command '" ++ command_name ++ "':\n"
    ++ ((alookup command_name cli.docs).getD "No description available.")

/-- What one `run_async` invocation produces: the returned exit code, the
printed strings in order, and the object state afterwards (only the listing
cache can change during a dispatch, through `show_help`). -/
structure RunResult where
  exitCode : Nat
  out : List String
  post : DynamicCLI

/-- Lines 189-200 of `run_async`: the executor boundary. The handler is
invoked with the token list; a normal return falls through to `return 0`, a
raised exception is caught by the generic `except Exception` and reported
with the resolved command name, returning 1. -/
def exec_outcome (resolved : String) (h : Handler) (command_args : List String)
    (cli : DynamicCLI) : RunResult :=
  match h.run command_args with
  | .ok => ⟨0, [], cli⟩
  | .err e => ⟨1, ["Command '" ++ resolved ++ "' failed with error: " ++ e], cli⟩

/-- The unknown-command path of `run_async` (lines 177-180). -/
def run_unknown (cli : DynamicCLI) (command_name : String) : RunResult :=
  let r := show_help cli
  ⟨1, ("Unknown command or alias: '" ++ command_name ++ "'\n") :: r.1, r.2⟩

/-- `run_async` (lines 156-202). Note two source details kept faithfully:
`if not resolved_command:` on line 177 is a Python truthiness test, so a
resolution that yields the empty string takes the unknown-command path; and
`command_args = args[1:]` on line 187, so the handler receives the tokens
after the command name. -/
def run_async (cli : DynamicCLI) (args : List String) : RunResult :=
  match args with
  | [] =>
    let r := show_help cli
    ⟨1, "No command provided.\n" :: r.1, r.2⟩
  | command_name :: rest =>
    if command_name = "--help" then
      let r := show_help cli
      ⟨0, r.1, r.2⟩
    else
      match resolve_command cli command_name with
      | none => run_unknown cli command_name
      | some resolved =>
        if resolved = "" then run_unknown cli command_name
        else if rest.head? = some "--help" then
          ⟨0, [show_command_help cli resolved], cli⟩
        else
          match alookup resolved cli.commands with
          | some h => exec_outcome resolved h rest cli
          | none =>
            match alookup resolved cli.async_commands with
            | some h => exec_outcome resolved h rest cli
            | none =>
              let r := show_help cli
              ⟨1, ("Error: command '" ++ resolved ++ "' not found.") :: r.1, r.2⟩

/-- The primary command names: sync and async together, in table order. -/
def primaryNames (cli : DynamicCLI) : List String :=
  keysOf cli.commands ++ keysOf cli.async_commands

/-- The registry namespace invariant: primary names (sync and async
together) are pairwise distinct, alias strings are pairwise distinct, and
the two sets are disjoint. -/
def RegistryInv (cli : DynamicCLI) : Prop :=
  (primaryNames cli).Nodup ∧ (keysOf cli.alias_map).Nodup ∧
    ∀ k, k ∈ primaryNames cli → k ∉ keysOf cli.alias_map

/-- The states a `DynamicCLI` object can be in: freshly constructed, or the
result of any method call on a reachable state — including `register_command`
calls that raise (their mutations persist on the object). -/
inductive Reachable : DynamicCLI → Prop where
  | init : Reachable initCLI
  | reg (cli : DynamicCLI) (n : String) (h : Handler) (b : Bool)
      (al : List String) (d : Option String) : Reachable cli →
      Reachable (register_command cli n h b al d).1
  | lst (cli : DynamicCLI) : Reachable cli → Reachable (list_commands cli).2
  | cmpl (cli : DynamicCLI) (p : String) : Reachable cli →
      Reachable (complete_command cli p).2
  | hlp (cli : DynamicCLI) : Reachable cli → Reachable (show_help cli).2
  | runa (cli : DynamicCLI) (args : List String) : Reachable cli →
      Reachable (run_async cli args).post

/-- A handler that always returns normally. -/
def okHandler : Handler := ⟨fun _ => HandlerRes.ok⟩

/-- A registry with the single synchronous command `"a"` (a successful
registration from the fresh state). -/
def cliA : DynamicCLI := (register_command initCLI "a" okHandler false [] none).1

/-- The state after: registering `"a"` successfully, calling `list_commands`
(which fills the cache with `["a"]`), then calling
`register_command "b" ... aliases={"a"}` — which installs the command `"b"`
and its doc, then raises on the alias collision with `"a"`, before the cache
invalidation line is reached. -/
def cliStale : DynamicCLI :=
  (register_command (list_commands cliA).2 "b" okHandler false ["a"] none).1

/-! Association-list facts used throughout. -/

theorem alookup_eq_none_iff {α : Type} (k : String) (l : List (String × α)) :
    alookup k l = none ↔ k ∉ keysOf l := by
  induction l with
  | nil => simp [alookup, keysOf]
  | cons p rest ih =>
    simp only [alookup, keysOf, List.map_cons, List.mem_cons]
    split
    · rename_i h
      exact iff_of_false (by simp) (not_not_intro (Or.inl h.symm))
    · rename_i h
      rw [ih]
      constructor
      · intro hn hor
        exact hor.elim (fun he => h he.symm) hn
      · intro hn hm
        exact hn (Or.inr hm)

theorem alookup_mem {α : Type} {k : String} {v : α} {l : List (String × α)}
    (h : alookup k l = some v) : k ∈ keysOf l := by
  by_contra hk
  rw [← alookup_eq_none_iff] at hk
  rw [hk] at h
  exact Option.noConfusion h

theorem hasKey_iff {α : Type} (k : String) (l : List (String × α)) :
    hasKey k l = true ↔ k ∈ keysOf l := by
  unfold hasKey
  rcases h : alookup k l with _ | v
  · simp only [Option.isSome_none, Bool.false_eq_true, false_iff]
    exact (alookup_eq_none_iff k l).mp h
  · simp only [Option.isSome_some, true_iff]
    exact alookup_mem h

theorem hasKey_false_iff {α : Type} (k : String) (l : List (String × α)) :
    hasKey k l = false ↔ k ∉ keysOf l := by
  rw [← Bool.not_eq_true, not_iff_not]
  exact hasKey_iff k l

theorem alookup_append_left {α : Type} {k : String} {v : α} {l m : List (String × α)}
    (h : alookup k l = some v) : alookup k (l ++ m) = some v := by
  induction l with
  | nil => exact absurd h (by simp [alookup])
  | cons p rest ih =>
    simp only [alookup, List.cons_append] at h ⊢
    split at h
    · simp [*]
    · simp only [*, if_false]
      exact ih h

theorem alookup_append_right {α : Type} {k : String} {l m : List (String × α)}
    (h : alookup k l = none) : alookup k (l ++ m) = alookup k m := by
  induction l with
  | nil => simp [alookup]
  | cons p rest ih =>
    simp only [alookup, List.cons_append] at h ⊢
    split at h
    · exact Option.noConfusion h
    · simp only [*, if_false]
      exact ih h

theorem keysOf_append {α : Type} (l m : List (String × α)) :
    keysOf (l ++ m) = keysOf l ++ keysOf m := by
  simp [keysOf]

theorem keysOf_singleton {α : Type} (k : String) (v : α) : keysOf [(k, v)] = [k] := rfl

/-! Which fields each operation can change: only `register_command` touches
the three name tables; `list_commands` (and everything built on it) can only
fill the listing cache. -/

theorem list_commands_post_fields (cli : DynamicCLI) :
    (list_commands cli).2.commands = cli.commands ∧
    (list_commands cli).2.async_commands = cli.async_commands ∧
    (list_commands cli).2.alias_map = cli.alias_map ∧
    (list_commands cli).2.docs = cli.docs := by
  unfold list_commands
  split <;> simp

theorem show_help_post (cli : DynamicCLI) : (show_help cli).2 = (list_commands cli).2 := rfl

theorem complete_command_post (cli : DynamicCLI) (p : String) :
    (complete_command cli p).2 = (list_commands cli).2 := rfl

theorem exec_outcome_post (r : String) (h : Handler) (a : List String) (cli : DynamicCLI) :
    (exec_outcome r h a cli).post = cli := by
  unfold exec_outcome
  split <;> rfl

theorem run_async_post_cases (cli : DynamicCLI) (args : List String) :
    (run_async cli args).post = cli ∨ (run_async cli args).post = (list_commands cli).2 := by
  cases args with
  | nil => right; rfl
  | cons a rest =>
    simp only [run_async]
    split
    · right; rfl
    · split
      · right; rfl
      · split
        · right; rfl
        · split
          · left; rfl
          · split
            · left; exact exec_outcome_post _ _ _ _
            · split
              · left; exact exec_outcome_post _ _ _ _
              · right; rfl

/-- Two states with the same three name tables (they may differ in docs or
cache). -/
def SameMaps (c c' : DynamicCLI) : Prop :=
  c'.commands = c.commands ∧ c'.async_commands = c.async_commands ∧
    c'.alias_map = c.alias_map

theorem inv_of_sameMaps {c c' : DynamicCLI} (hs : SameMaps c c') (h : RegistryInv c) :
    RegistryInv c' := by
  obtain ⟨h1, h2, h3⟩ := hs
  unfold RegistryInv primaryNames at h ⊢
  rw [h1, h2, h3]
  exact h

theorem sameMaps_list (cli : DynamicCLI) : SameMaps cli (list_commands cli).2 := by
  obtain ⟨h1, h2, h3, _⟩ := list_commands_post_fields cli
  exact ⟨h1, h2, h3⟩

/-! `registerAliases`: the loop only appends to the alias table, and checks
each alias against the current tables before appending it. -/

theorem registerAliases_fields (c : DynamicCLI) (n : String) (al : List String) :
    (registerAliases c n al).1.commands = c.commands ∧
    (registerAliases c n al).1.async_commands = c.async_commands ∧
    (registerAliases c n al).1.docs = c.docs ∧
    (registerAliases c n al).1.all_commands_cached = c.all_commands_cached := by
  induction al generalizing c with
  | nil => simp [registerAliases]
  | cons a rest ih =>
    simp only [registerAliases]
    split
    · simp
    · simpa using ih { c with alias_map := c.alias_map ++ [(a, n)] }

theorem registerAliases_alias_suffix (c : DynamicCLI) (n : String) (al : List String) :
    ∃ ext, (registerAliases c n al).1.alias_map = c.alias_map ++ ext := by
  induction al generalizing c with
  | nil => exact ⟨[], by simp [registerAliases]⟩
  | cons a rest ih =>
    simp only [registerAliases]
    split
    · exact ⟨[], by simp⟩
    · obtain ⟨ext, hext⟩ := ih { c with alias_map := c.alias_map ++ [(a, n)] }
      exact ⟨(a, n) :: ext, by rw [hext]; simp⟩

theorem registerAliases_inv (c : DynamicCLI) (n : String) (al : List String)
    (hinv : RegistryInv c) : RegistryInv (registerAliases c n al).1 := by
  induction al generalizing c with
  | nil => exact hinv
  | cons a rest ih =>
    simp only [registerAliases]
    split
    · exact hinv
    · rename_i hcond
      rw [Bool.not_eq_true] at hcond
      simp only [Bool.or_eq_false_iff] at hcond
      obtain ⟨⟨hc, ha⟩, hm⟩ := hcond
      refine ih { c with alias_map := c.alias_map ++ [(a, n)] } ?_
      obtain ⟨n1, n2, n3⟩ := hinv
      refine ⟨n1, ?_, ?_⟩
      · simp only [keysOf_append]
        rw [List.nodup_append]
        refine ⟨n2, List.nodup_singleton a, ?_⟩
        intro x hx hxa
        simp only [keysOf, List.map_cons, List.map_nil, List.mem_singleton] at hxa
        subst hxa
        exact (hasKey_false_iff x c.alias_map).mp hm hx
      · intro k hk
        simp only [keysOf_append, List.mem_append]
        rintro (hmem | hmem)
        · exact n3 k hk hmem
        · simp only [keysOf, List.map_cons, List.map_nil, List.mem_singleton] at hmem
          subst hmem
          rcases List.mem_append.mp hk with hkc | hka
          · exact (hasKey_false_iff k c.commands).mp hc hkc
          · exact (hasKey_false_iff k c.async_commands).mp ha hka

/-! `register_command`: branch shapes and invariant preservation. -/

theorem register_command_collision (cli : DynamicCLI) (n : String) (h : Handler) (b : Bool)
    (al : List String) (d : Option String)
    (hc : (hasKey n cli.commands || hasKey n cli.async_commands
      || hasKey n cli.alias_map) = true) :
    register_command cli n h b al d =
      (cli, some ("Command or alias '" ++ n ++ "' is already registered.")) := by
  unfold register_command
  rw [if_pos hc]

theorem register_command_fresh (cli : DynamicCLI) (n : String) (h : Handler) (b : Bool)
    (al : List String) (d : Option String)
    (hc : (hasKey n cli.commands || hasKey n cli.async_commands
      || hasKey n cli.alias_map) = false) :
    register_command cli n h b al d =
      (match (registerAliases (installDoc (installHandler cli n h b) n d) n al).2 with
       | some e => ((registerAliases (installDoc (installHandler cli n h b) n d) n al).1,
          some e)
       | none => ({ (registerAliases (installDoc (installHandler cli n h b) n d) n al).1
          with all_commands_cached := none }, none)) := by
  unfold register_command
  rw [if_neg (by simp [hc])]

theorem installHandler_inv (cli : DynamicCLI) (n : String) (h : Handler) (b : Bool)
    (hn : n ∉ primaryNames cli) (hna : n ∉ keysOf cli.alias_map)
    (hinv : RegistryInv cli) : RegistryInv (installHandler cli n h b) := by
  obtain ⟨n1, n2, n3⟩ := hinv
  unfold installHandler
  split
  · refine ⟨?_, n2, ?_⟩
    · unfold primaryNames at n1 ⊢
      simp only [keysOf_append]
      rw [← List.append_assoc, List.nodup_append]
      refine ⟨n1, ?_, ?_⟩
      · simp only [keysOf, List.map_cons, List.map_nil]
        exact List.nodup_singleton n
      · intro x hx hxn
        simp only [keysOf, List.map_cons, List.map_nil, List.mem_singleton] at hxn
        subst hxn
        exact hn (by simpa [primaryNames] using hx)
    · intro k hk
      unfold primaryNames at hk
      simp only [keysOf_append] at hk
      rw [← List.append_assoc] at hk
      rcases List.mem_append.mp hk with hk | hk
      · exact n3 k hk
      · simp only [keysOf, List.map_cons, List.map_nil, List.mem_singleton] at hk
        subst hk
        exact hna
  · refine ⟨?_, n2, ?_⟩
    · unfold primaryNames at n1 ⊢
      simp only [keysOf_append, keysOf_singleton]
      have hperm : (keysOf cli.commands ++ [n]) ++ keysOf cli.async_commands
          = keysOf cli.commands ++ n :: keysOf cli.async_commands := by simp
      rw [hperm, List.nodup_middle]
      refine List.Nodup.cons ?_ n1
      intro hmem
      exact hn (by simpa [primaryNames] using hmem)
    · intro k hk
      unfold primaryNames at hk
      simp only [keysOf_append, keysOf_singleton] at hk
      have hperm : (keysOf cli.commands ++ [n]) ++ keysOf cli.async_commands
          = keysOf cli.commands ++ n :: keysOf cli.async_commands := by simp
      rw [hperm] at hk
      rcases List.mem_append.mp hk with hk | hk
      · exact n3 k (List.mem_append.mpr (Or.inl hk))
      · rcases List.mem_cons.mp hk with hk | hk
        · subst hk; exact hna
        · exact n3 k (List.mem_append.mpr (Or.inr hk))

theorem installDoc_maps (cli : DynamicCLI) (n : String) (d : Option String) :
    (installDoc cli n d).commands = cli.commands ∧
    (installDoc cli n d).async_commands = cli.async_commands ∧
    (installDoc cli n d).alias_map = cli.alias_map := by
  unfold installDoc
  exact ⟨rfl, rfl, rfl⟩

theorem installDoc_inv (cli : DynamicCLI) (n : String) (d : Option String)
    (hinv : RegistryInv cli) : RegistryInv (installDoc cli n d) := by
  obtain ⟨h1, h2, h3⟩ := installDoc_maps cli n d
  exact inv_of_sameMaps ⟨h1, h2, h3⟩ hinv

theorem register_command_inv (cli : DynamicCLI) (n : String) (h : Handler) (b : Bool)
    (al : List String) (d : Option String) (hinv : RegistryInv cli) :
    RegistryInv (register_command cli n h b al d).1 := by
  by_cases hc : (hasKey n cli.commands || hasKey n cli.async_commands
      || hasKey n cli.alias_map) = true
  · rw [register_command_collision cli n h b al d hc]
    exact hinv
  · rw [Bool.not_eq_true] at hc
    rw [register_command_fresh cli n h b al d hc]
    simp only [Bool.or_eq_false_iff] at hc
    obtain ⟨⟨hcc, hca⟩, hcm⟩ := hc
    have hn : n ∉ primaryNames cli := by
      intro hmem
      rcases List.mem_append.mp hmem with hmem | hmem
      · exact (hasKey_false_iff n cli.commands).mp hcc hmem
      · exact (hasKey_false_iff n cli.async_commands).mp hca hmem
    have hna : n ∉ keysOf cli.alias_map := (hasKey_false_iff n cli.alias_map).mp hcm
    have hinv2 : RegistryInv (installDoc (installHandler cli n h b) n d) :=
      installDoc_inv _ n d (installHandler_inv cli n h b hn hna hinv)
    have hinv3 := registerAliases_inv _ n al hinv2
    rcases hres : (registerAliases (installDoc (installHandler cli n h b) n d) n al).2
        with _ | e
    · exact hinv3
    · exact hinv3

/-- The registry namespace invariant holds in every reachable state,
including states left behind by `register_command` calls that raised. -/
theorem reachable_inv {cli : DynamicCLI} (h : Reachable cli) : RegistryInv cli := by
  induction h with
  | init =>
    refine ⟨List.nodup_nil, List.nodup_nil, ?_⟩
    intro k hk
    simp [primaryNames, keysOf, initCLI] at hk
  | reg cli n hh b al d hr ih => exact register_command_inv cli n hh b al d ih
  | lst cli hr ih => exact inv_of_sameMaps (sameMaps_list cli) ih
  | cmpl cli p hr ih =>
    rw [complete_command_post]
    exact inv_of_sameMaps (sameMaps_list cli) ih
  | hlp cli hr ih =>
    rw [show_help_post]
    exact inv_of_sameMaps (sameMaps_list cli) ih
  | runa cli args hr ih =>
    rcases run_async_post_cases cli args with hp | hp
    · rw [hp]; exact ih
    · rw [hp]; exact inv_of_sameMaps (sameMaps_list cli) ih

/-! Shapes of the two branches of the alias loop, and what a loop that
raised no error guarantees about its aliases. -/

theorem registerAliases_cons_collision (c : DynamicCLI) (n a : String) (rest : List String)
    (hcond : (hasKey a c.commands || hasKey a c.async_commands
      || hasKey a c.alias_map) = true) :
    registerAliases c n (a :: rest) =
      (c, some ("Alias '" ++ a ++ "' conflicts with an existing command or alias.")) := by
  unfold registerAliases
  rw [if_pos hcond]

theorem registerAliases_cons_fresh (c : DynamicCLI) (n a : String) (rest : List String)
    (hcond : (hasKey a c.commands || hasKey a c.async_commands
      || hasKey a c.alias_map) = false) :
    registerAliases c n (a :: rest) =
      registerAliases { c with alias_map := c.alias_map ++ [(a, n)] } n rest := by
  conv_lhs => simp only [registerAliases]
  rw [if_neg (by simp [hcond])]

theorem registerAliases_success_lookup (c : DynamicCLI) (n : String) (al : List String)
    (hs : (registerAliases c n al).2 = none) :
    ∀ a ∈ al, alookup a (registerAliases c n al).1.alias_map = some n := by
  induction al generalizing c with
  | nil => intro a ha; exact absurd ha (List.not_mem_nil a)
  | cons a rest ih =>
    intro x hx
    by_cases hcond : (hasKey a c.commands || hasKey a c.async_commands
        || hasKey a c.alias_map) = true
    · rw [registerAliases_cons_collision c n a rest hcond] at hs
      exact absurd hs (by simp)
    · rw [Bool.not_eq_true] at hcond
      rw [registerAliases_cons_fresh c n a rest hcond] at hs ⊢
      simp only [Bool.or_eq_false_iff] at hcond
      obtain ⟨⟨hc, ha⟩, hm⟩ := hcond
      rcases List.mem_cons.mp hx with hx | hx
      · subst hx
        obtain ⟨ext, hext⟩ :=
          registerAliases_alias_suffix { c with alias_map := c.alias_map ++ [(x, n)] } n rest
        rw [hext]
        have hnone : alookup x c.alias_map = none :=
          (alookup_eq_none_iff x c.alias_map).mpr ((hasKey_false_iff x c.alias_map).mp hm)
        show alookup x ((c.alias_map ++ [(x, n)]) ++ ext) = some n
        rw [List.append_assoc, alookup_append_right hnone]
        simp [alookup]
      · exact ih { c with alias_map := c.alias_map ++ [(a, n)] } hs x hx

theorem registerAliases_success_checked (c : DynamicCLI) (n : String) (al : List String)
    (hs : (registerAliases c n al).2 = none) :
    ∀ a ∈ al, hasKey a c.commands = false ∧ hasKey a c.async_commands = false := by
  induction al generalizing c with
  | nil => intro a ha; exact absurd ha (List.not_mem_nil a)
  | cons a rest ih =>
    intro x hx
    by_cases hcond : (hasKey a c.commands || hasKey a c.async_commands
        || hasKey a c.alias_map) = true
    · rw [registerAliases_cons_collision c n a rest hcond] at hs
      exact absurd hs (by simp)
    · rw [Bool.not_eq_true] at hcond
      rw [registerAliases_cons_fresh c n a rest hcond] at hs
      simp only [Bool.or_eq_false_iff] at hcond
      obtain ⟨⟨hc, ha⟩, hm⟩ := hcond
      rcases List.mem_cons.mp hx with hx | hx
      · subst hx
        exact ⟨hc, ha⟩
      · exact ih { c with alias_map := c.alias_map ++ [(a, n)] } hs x hx

/-! What a successful `register_command` call guarantees. -/

theorem register_command_success_shape (cli : DynamicCLI) (n : String) (h : Handler)
    (b : Bool) (al : List String) (d : Option String)
    (hs : (register_command cli n h b al d).2 = none) :
    (hasKey n cli.commands || hasKey n cli.async_commands || hasKey n cli.alias_map) = false
    ∧ (registerAliases (installDoc (installHandler cli n h b) n d) n al).2 = none
    ∧ (register_command cli n h b al d).1
        = { (registerAliases (installDoc (installHandler cli n h b) n d) n al).1
            with all_commands_cached := none } := by
  by_cases hc : (hasKey n cli.commands || hasKey n cli.async_commands
      || hasKey n cli.alias_map) = true
  · rw [register_command_collision cli n h b al d hc] at hs
    exact absurd hs (by simp)
  · rw [Bool.not_eq_true] at hc
    rw [register_command_fresh cli n h b al d hc] at hs ⊢
    rcases hres : (registerAliases (installDoc (installHandler cli n h b) n d) n al).2
        with _ | e
    · exact ⟨hc, rfl, rfl⟩
    · rw [hres] at hs
      simp at hs

theorem installHandler_alias_map (cli : DynamicCLI) (n : String) (h : Handler) (b : Bool) :
    (installHandler cli n h b).alias_map = cli.alias_map := by
  unfold installHandler
  split <;> rfl

theorem installHandler_primary (cli : DynamicCLI) (n : String) (h : Handler) (b : Bool)
    (x : String) :
    x ∈ primaryNames (installHandler cli n h b) ↔ (x ∈ primaryNames cli ∨ x = n) := by
  unfold installHandler primaryNames
  split <;>
    · simp only [keysOf_append, keysOf_singleton, List.mem_append, List.mem_singleton]
      tauto

theorem register_success_primary (cli : DynamicCLI) (n : String) (h : Handler) (b : Bool)
    (al : List String) (d : Option String)
    (hs : (register_command cli n h b al d).2 = none) (x : String) :
    x ∈ primaryNames (register_command cli n h b al d).1
      ↔ (x ∈ primaryNames cli ∨ x = n) := by
  obtain ⟨hfresh, hloop, hpost⟩ := register_command_success_shape cli n h b al d hs
  rw [hpost]
  obtain ⟨fc, fa, _, _⟩ :=
    registerAliases_fields (installDoc (installHandler cli n h b) n d) n al
  show x ∈ primaryNames _ ↔ _
  unfold primaryNames
  show x ∈ keysOf (registerAliases _ n al).1.commands
      ++ keysOf (registerAliases _ n al).1.async_commands ↔ _
  rw [fc, fa]
  exact installHandler_primary cli n h b x

theorem register_success_alias_suffix (cli : DynamicCLI) (n : String) (h : Handler)
    (b : Bool) (al : List String) (d : Option String)
    (hs : (register_command cli n h b al d).2 = none) :
    ∃ ext, (register_command cli n h b al d).1.alias_map = cli.alias_map ++ ext := by
  obtain ⟨hfresh, hloop, hpost⟩ := register_command_success_shape cli n h b al d hs
  rw [hpost]
  obtain ⟨ext, hext⟩ :=
    registerAliases_alias_suffix (installDoc (installHandler cli n h b) n d) n al
  refine ⟨ext, ?_⟩
  show (registerAliases _ n al).1.alias_map = _
  rw [hext]
  show (installHandler cli n h b).alias_map ++ ext = _
  rw [installHandler_alias_map]

/-! The resolver, characterised by which table answers. -/

theorem resolve_eq_some_self (c : DynamicCLI) (x : String) (hx : x ∈ primaryNames c) :
    resolve_command c x = some x := by
  unfold resolve_command
  rcases List.mem_append.mp hx with hm | hm
  · rw [if_pos (by simp [(hasKey_iff x c.commands).mpr hm])]
  · rw [if_pos (by simp [(hasKey_iff x c.async_commands).mpr hm])]

theorem resolve_eq_alias (c : DynamicCLI) (x : String) (hx : x ∉ primaryNames c) :
    resolve_command c x = alookup x c.alias_map := by
  unfold resolve_command
  have h1 : hasKey x c.commands = false :=
    (hasKey_false_iff x c.commands).mpr fun hm => hx (List.mem_append.mpr (Or.inl hm))
  have h2 : hasKey x c.async_commands = false :=
    (hasKey_false_iff x c.async_commands).mpr fun hm => hx (List.mem_append.mpr (Or.inr hm))
  rw [if_neg (by simp [h1, h2])]

/-! The dispatch loop, branch by branch. -/

theorem run_async_nil (cli : DynamicCLI) :
    run_async cli [] = ⟨1, "No command provided.\n" :: (show_help cli).1, (show_help cli).2⟩ :=
  rfl

theorem run_async_global_help (cli : DynamicCLI) (rest : List String) :
    run_async cli ("--help" :: rest) = ⟨0, (show_help cli).1, (show_help cli).2⟩ := by
  simp only [run_async]
  simp

theorem run_async_unresolved (cli : DynamicCLI) (a0 : String) (rest : List String)
    (h0 : a0 ≠ "--help") (h1 : resolve_command cli a0 = none) :
    run_async cli (a0 :: rest) = run_unknown cli a0 := by
  simp only [run_async]
  rw [if_neg h0]
  simp only [h1]

theorem run_async_empty_resolved (cli : DynamicCLI) (a0 : String) (rest : List String)
    (h0 : a0 ≠ "--help") (h1 : resolve_command cli a0 = some "") :
    run_async cli (a0 :: rest) = run_unknown cli a0 := by
  simp only [run_async]
  rw [if_neg h0]
  simp only [h1]
  simp

theorem run_async_command_help (cli : DynamicCLI) (a0 : String) (rest : List String)
    (r : String) (h0 : a0 ≠ "--help") (h1 : resolve_command cli a0 = some r)
    (h2 : r ≠ "") (h3 : rest.head? = some "--help") :
    run_async cli (a0 :: rest) = ⟨0, [show_command_help cli r], cli⟩ := by
  simp only [run_async]
  rw [if_neg h0]
  simp only [h1]
  rw [if_neg h2, if_pos h3]

/-- The Dispatch state: the first token resolves (to a nonempty name, see the
truthiness note on `run_async`) and the second token, if any, is not
`"--help"`; the executor is reached with exactly `args[1:]` — the tokens of
the argument list from index 1 on. -/
theorem run_async_dispatch (cli : DynamicCLI) (a0 : String) (rest : List String)
    (r : String) (h : Handler) (h0 : a0 ≠ "--help") (h1 : resolve_command cli a0 = some r)
    (h2 : r ≠ "") (h3 : rest.head? ≠ some "--help")
    (h4 : alookup r cli.commands = some h ∨
      (alookup r cli.commands = none ∧ alookup r cli.async_commands = some h)) :
    run_async cli (a0 :: rest) = exec_outcome r h ((a0 :: rest).drop 1) cli := by
  simp only [run_async]
  rw [if_neg h0]
  simp only [h1]
  rw [if_neg h2, if_neg h3]
  rcases h4 with h4 | ⟨h4n, h4a⟩
  · simp only [h4]
    rfl
  · simp only [h4n, h4a]
    rfl

theorem run_async_exit01 (cli : DynamicCLI) (args : List String) :
    (run_async cli args).exitCode = 0 ∨ (run_async cli args).exitCode = 1 := by
  cases args with
  | nil => right; rfl
  | cons a rest =>
    simp only [run_async]
    split
    · left; rfl
    · split
      · right; rfl
      · split
        · right; rfl
        · split
          · left; rfl
          · split
            · unfold exec_outcome
              split
              · left; rfl
              · right; rfl
            · split
              · unfold exec_outcome
                split
                · left; rfl
                · right; rfl
              · right; rfl

/-! Concrete registries used as witnesses and counterexamples. -/

/-- A handler that returns normally iff it received no arguments: it
distinguishes being invoked on `args[1:]` from being invoked on `args[2:]`. -/
def argProbe : Handler :=
  ⟨fun l => if l = [] then HandlerRes.ok else HandlerRes.err "received arguments"⟩

/-- A registry with the single synchronous command `"greet"` handled by
`argProbe`. -/
def cliGreet : DynamicCLI := (register_command initCLI "greet" argProbe false [] none).1

/-- A handler that returns normally iff invoked exactly on `["Bob"]`. -/
def greetProbe : Handler :=
  ⟨fun l => if l = ["Bob"] then HandlerRes.ok else HandlerRes.err "unexpected arguments"⟩

/-- A registry with the single synchronous command `"greet"` handled by
`greetProbe`. -/
def cliGreetBob : DynamicCLI := (register_command initCLI "greet" greetProbe false [] none).1

/-- A handler that always raises, with error text `"boom"`. -/
def failHandler : Handler := ⟨fun _ => HandlerRes.err "boom"⟩

/-- A registry with the single synchronous command `"bad"` whose handler
always raises. -/
def cliBad : DynamicCLI := (register_command initCLI "bad" failHandler false [] none).1

/-- A registry whose only command has the empty string as its primary name
(nothing in `register_command` forbids this). -/
def cliEmptyName : DynamicCLI := (register_command initCLI "" okHandler false [] none).1

/-- A registry with command `"add"` aliased by `"sum"`. -/
def cliAddSum : DynamicCLI :=
  (register_command initCLI "add" okHandler false ["sum"] none).1

/-! The claims. -/

/-- C1: the code violates the atomicity contract the spec mandates (its §9
flags the source's check-aliases-after-inserting-command order as a latent
bug). Evaluation at the failing input: with `"a"` registered, the call
`register_command "b" (aliases = {"a"})` raises on the alias collision, yet
afterwards `"b"` resolves as a command and has a stored doc — the registry's
observable state changed although the call failed. -/
theorem register_duplicate_alias_mutates_registry :
    (register_command cliA "b" okHandler false ["a"] none).2
        = some "Alias 'a' conflicts with an existing command or alias."
    ∧ resolve_command cliA "b" = none
    ∧ resolve_command (register_command cliA "b" okHandler false ["a"] none).1 "b"
        = some "b"
    ∧ alookup "b" (register_command cliA "b" okHandler false ["a"] none).1.docs
        = some "No description provided." := by
  decide

/-- C2 (counterexample to the claim as stated): dispatching
`["greet", "Bob"]` to a handler that succeeds on the empty token list yields
exit code 1, so the executor was not invoked with `args[2:] = []` — the
handler observed `["Bob"]`. -/
theorem run_async_not_drop_two :
    resolve_command cliGreet "greet" = some "greet"
    ∧ argProbe.run (["greet", "Bob"].drop 2) = HandlerRes.ok
    ∧ (run_async cliGreet ["greet", "Bob"]).exitCode = 1 := by
  decide

/-- C2 (amended): in the Dispatch state the executor is invoked with
`args[1:]` — the tokens from index 1 on, not index 2 — and the loop returns
0 when the handler completes, 1 when it raises. -/
theorem dispatch_invokes_executor_on_tail (cli : DynamicCLI) (a0 : String)
    (rest : List String) (r : String) (h : Handler) (h0 : a0 ≠ "--help")
    (h1 : resolve_command cli a0 = some r) (h2 : r ≠ "")
    (h3 : rest.head? ≠ some "--help")
    (h4 : alookup r cli.commands = some h ∨
      (alookup r cli.commands = none ∧ alookup r cli.async_commands = some h)) :
    run_async cli (a0 :: rest) = exec_outcome r h ((a0 :: rest).drop 1) cli
    ∧ (run_async cli (a0 :: rest)).exitCode
        = (match h.run ((a0 :: rest).drop 1) with
           | HandlerRes.ok => 0
           | HandlerRes.err _ => 1) := by
  have hd := run_async_dispatch cli a0 rest r h h0 h1 h2 h3 h4
  refine ⟨hd, ?_⟩
  rw [hd]
  unfold exec_outcome
  cases hr : h.run ((a0 :: rest).drop 1) <;> simp [hr]

/-- C2 witness: the amended theorem at the concrete `greet` registry. -/
theorem dispatch_invokes_executor_on_tail_witness :
    run_async cliGreet ["greet", "Bob"]
      = exec_outcome "greet" argProbe (["greet", "Bob"].drop 1) cliGreet := by
  have h := dispatch_invokes_executor_on_tail cliGreet "greet" ["Bob"] "greet" argProbe
    (by decide) (by decide) (by decide) (by decide) (Or.inl rfl)
  exact h.1

/-- C3 (counterexample to the claim as stated): with the empty string
registered as a primary command, `args = [""]` resolves
(`resolve_command` returns `some ""`), no help flag is present and the
handler would succeed, yet `run_async` returns 1 — the code's
`if not resolved_command:` truthiness test sends a resolved empty name down
the unknown-command path instead of executing it. -/
theorem empty_name_resolves_but_dispatch_rejects :
    (register_command initCLI "" okHandler false [] none).2 = none
    ∧ resolve_command cliEmptyName "" = some ""
    ∧ okHandler.run [] = HandlerRes.ok
    ∧ (run_async cliEmptyName [""]).exitCode = 1 := by
  decide

/-- C3 (amended): `run_async` returns exactly 0 or 1 and follows the
five-state machine, with one correction: the unknown-command branch is taken
not only when `args[0]` does not resolve but also when it resolves to the
empty-string primary name (the Python truthiness test on line 177). -/
theorem run_async_state_machine (cli : DynamicCLI) (args : List String) :
    ((run_async cli args).exitCode = 0 ∨ (run_async cli args).exitCode = 1)
    ∧ (args = [] →
        run_async cli args
          = ⟨1, "No command provided.\n" :: (show_help cli).1, (show_help cli).2⟩)
    ∧ (∀ rest, args = "--help" :: rest →
        run_async cli args = ⟨0, (show_help cli).1, (show_help cli).2⟩)
    ∧ (∀ a0 rest, args = a0 :: rest → a0 ≠ "--help" →
        (resolve_command cli a0 = none ∨ resolve_command cli a0 = some "") →
        run_async cli args = run_unknown cli a0)
    ∧ (∀ a0 rest r, args = a0 :: rest → a0 ≠ "--help" →
        resolve_command cli a0 = some r → r ≠ "" → rest.head? = some "--help" →
        run_async cli args = ⟨0, [show_command_help cli r], cli⟩)
    ∧ (∀ a0 rest r h, args = a0 :: rest → a0 ≠ "--help" →
        resolve_command cli a0 = some r → r ≠ "" → rest.head? ≠ some "--help" →
        (alookup r cli.commands = some h ∨
          (alookup r cli.commands = none ∧ alookup r cli.async_commands = some h)) →
        run_async cli args = exec_outcome r h rest cli) := by
  refine ⟨run_async_exit01 cli args, ?_, ?_, ?_, ?_, ?_⟩
  · rintro rfl
    exact run_async_nil cli
  · rintro rest rfl
    exact run_async_global_help cli rest
  · rintro a0 rest rfl h0 hres
    rcases hres with hres | hres
    · exact run_async_unresolved cli a0 rest h0 hres
    · exact run_async_empty_resolved cli a0 rest h0 hres
  · rintro a0 rest r rfl h0 h1 h2 h3
    exact run_async_command_help cli a0 rest r h0 h1 h2 h3
  · rintro a0 rest r h rfl h0 h1 h2 h3 h4
    exact run_async_dispatch cli a0 rest r h h0 h1 h2 h3 h4

/-- C4: a handler that raises is caught at the executor boundary — dispatch
still returns (exit code 1) and the one printed message carries the resolved
command name and the error text as substrings. -/
theorem handler_failure_caught_and_reported (cli : DynamicCLI) (a0 : String)
    (rest : List String) (r : String) (h : Handler) (e : String)
    (h0 : a0 ≠ "--help") (h1 : resolve_command cli a0 = some r) (h2 : r ≠ "")
    (h3 : rest.head? ≠ some "--help")
    (h4 : alookup r cli.commands = some h ∨
      (alookup r cli.commands = none ∧ alookup r cli.async_commands = some h))
    (h5 : h.run rest = HandlerRes.err e) :
    (run_async cli (a0 :: rest)).exitCode = 1
    ∧ (run_async cli (a0 :: rest)).out
        = ["Command '" ++ r ++ "' failed with error: " ++ e]
    ∧ (∃ s t, "Command '" ++ r ++ "' failed with error: " ++ e = s ++ r ++ t)
    ∧ (∃ s, "Command '" ++ r ++ "' failed with error: " ++ e = s ++ e) := by
  have hd := run_async_dispatch cli a0 rest r h h0 h1 h2 h3 h4
  rw [hd]
  unfold exec_outcome
  simp only [List.drop_succ_cons, List.drop_zero, h5]
  refine ⟨by trivial, by trivial, ⟨"Command '", "' failed with error: " ++ e, ?_⟩,
    ⟨"Command '" ++ r ++ "' failed with error: ", rfl⟩⟩
  rw [String.append_assoc]

/-- C4 witness: the always-raising handler `"bad"` yields exit 1 and the
reporting message. -/
theorem handler_failure_caught_and_reported_witness :
    (run_async cliBad ["bad"]).exitCode = 1
    ∧ (run_async cliBad ["bad"]).out
        = ["Command '" ++ "bad" ++ "' failed with error: " ++ "boom"] := by
  have h := handler_failure_caught_and_reported cliBad "bad" [] "bad" failHandler "boom"
    (by decide) (by decide) (by decide) (by decide) (Or.inl rfl) rfl
  exact ⟨h.1, h.2.1⟩

/-- C5: in every reachable state, a primary name resolves to itself, an alias
resolves to its target, anything in neither table resolves to `none`; and a
successful registration makes the new name and each of its aliases resolve to
the new name, while preserving every resolution that held before. -/
theorem resolve_alias_roundtrip (cli : DynamicCLI) (hreach : Reachable cli) :
    (∀ n, n ∈ primaryNames cli → resolve_command cli n = some n)
    ∧ (∀ a n, alookup a cli.alias_map = some n → resolve_command cli a = some n)
    ∧ (∀ x, x ∉ primaryNames cli → alookup x cli.alias_map = none →
        resolve_command cli x = none)
    ∧ (∀ n h b al d, (register_command cli n h b al d).2 = none →
        resolve_command (register_command cli n h b al d).1 n = some n
        ∧ ∀ a ∈ al, resolve_command (register_command cli n h b al d).1 a = some n)
    ∧ (∀ n h b al d x r, (register_command cli n h b al d).2 = none →
        resolve_command cli x = some r →
        resolve_command (register_command cli n h b al d).1 x = some r) := by
  obtain ⟨n1, n2, n3⟩ := reachable_inv hreach
  refine ⟨?_, ?_, ?_, ?_, ?_⟩
  · intro n hn
    exact resolve_eq_some_self cli n hn
  · intro a n ha
    have hmem : a ∈ keysOf cli.alias_map := alookup_mem ha
    have hnp : a ∉ primaryNames cli := fun hp => n3 a hp hmem
    rw [resolve_eq_alias cli a hnp]
    exact ha
  · intro x hx hax
    rw [resolve_eq_alias cli x hx]
    exact hax
  · intro n h b al d hs
    obtain ⟨hfresh, hloop, hpost⟩ := register_command_success_shape cli n h b al d hs
    constructor
    · refine resolve_eq_some_self _ n ?_
      rw [register_success_primary cli n h b al d hs n]
      exact Or.inr rfl
    · intro a ha
      have hchk := registerAliases_success_checked _ n al hloop a ha
      have hmem2 : a ∉ primaryNames (installDoc (installHandler cli n h b) n d) := by
        intro hm
        rcases List.mem_append.mp hm with hm | hm
        · have ht := (hasKey_iff a (installDoc (installHandler cli n h b) n d).commands).mpr hm
          rw [hchk.1] at ht
          exact Bool.noConfusion ht
        · have ht :=
            (hasKey_iff a (installDoc (installHandler cli n h b) n d).async_commands).mpr hm
          rw [hchk.2] at ht
          exact Bool.noConfusion ht
      have hnp : a ∉ primaryNames (register_command cli n h b al d).1 := by
        intro hm
        rw [register_success_primary cli n h b al d hs a] at hm
        refine hmem2 ?_
        show a ∈ primaryNames (installHandler cli n h b)
        rw [installHandler_primary cli n h b a]
        exact hm
      rw [resolve_eq_alias _ a hnp, hpost]
      exact registerAliases_success_lookup _ n al hloop a ha
  · intro n h b al d x r hs hx
    by_cases hxp : x ∈ primaryNames cli
    · rw [resolve_eq_some_self cli x hxp] at hx
      obtain rfl : x = r := Option.some.inj hx
      refine resolve_eq_some_self _ x ?_
      rw [register_success_primary cli n h b al d hs x]
      exact Or.inl hxp
    · rw [resolve_eq_alias cli x hxp] at hx
      have hxk : x ∈ keysOf cli.alias_map := alookup_mem hx
      obtain ⟨hfresh, hloop, hpost⟩ := register_command_success_shape cli n h b al d hs
      have hxn : x ≠ n := by
        intro he
        subst he
        simp only [Bool.or_eq_false_iff] at hfresh
        exact (hasKey_false_iff x cli.alias_map).mp hfresh.2 hxk
      have hnp : x ∉ primaryNames (register_command cli n h b al d).1 := by
        intro hm
        rw [register_success_primary cli n h b al d hs x] at hm
        rcases hm with hm | hm
        · exact hxp hm
        · exact hxn hm
      rw [resolve_eq_alias _ x hnp]
      obtain ⟨ext, hext⟩ := register_success_alias_suffix cli n h b al d hs
      rw [hext]
      exact alookup_append_left hx

/-- C5 witness: `"add"` aliased by `"sum"`: both resolve to `"add"`;
`"mul"` resolves to nothing. -/
theorem resolve_alias_roundtrip_witness :
    resolve_command cliAddSum "add" = some "add"
    ∧ resolve_command cliAddSum "sum" = some "add"
    ∧ resolve_command cliAddSum "mul" = none := by
  have h := resolve_alias_roundtrip cliAddSum
    (Reachable.reg initCLI "add" okHandler false ["sum"] none Reachable.init)
  exact ⟨h.1 "add" (by decide), h.2.1 "sum" "add" (by decide),
    h.2.2.1 "mul" (by decide) (by decide)⟩

/-- C6: after every sequence of method calls — registrations that fail
included — the primary names (sync and async together) are pairwise
distinct, the alias strings are pairwise distinct, and no string is both a
primary name and an alias. -/
theorem registry_namespaces_disjoint (cli : DynamicCLI) (h : Reachable cli) :
    (primaryNames cli).Nodup ∧ (keysOf cli.alias_map).Nodup ∧
      ∀ k, k ∈ primaryNames cli → k ∉ keysOf cli.alias_map :=
  reachable_inv h

/-- C6 witness: the invariant at a state reached through a failed
registration (`cliStale`). -/
theorem registry_namespaces_disjoint_witness :
    (primaryNames cliStale).Nodup ∧ (keysOf cliStale.alias_map).Nodup ∧
      ∀ k, k ∈ primaryNames cliStale → k ∉ keysOf cliStale.alias_map :=
  registry_namespaces_disjoint cliStale
    (Reachable.reg (list_commands cliA).2 "b" okHandler false ["a"] none
      (Reachable.lst cliA
        (Reachable.reg initCLI "a" okHandler false [] none Reachable.init)))

/-- C7: evaluation at the failing input. After the successful registration of
`"a"` alone, a failed `register_command "b" (aliases = {"a"})` leaves the
orphaned `"b"` in the command table, and the next `list_commands` reports
`["a", "b"]` — not exactly the primary names of the successful registrations
(`["a"]`). The root cause is the non-atomic registration the spec's §9 flags
as a latent bug. -/
theorem list_commands_reports_orphan :
    (register_command cliA "b" okHandler false ["a"] none).2
        = some "Alias 'a' conflicts with an existing command or alias."
    ∧ (list_commands (register_command cliA "b" okHandler false ["a"] none).1).1
        = ["a", "b"] := by
  decide

/-- C8: evaluation at the failing input. In `cliStale` the cache predates the
failed registration that installed `"b"`, no alias is installed, and
`complete_command ""` answers `["a"]` from the stale cache — omitting the
installed, dispatchable primary name `"b"` that matches the empty prefix. -/
theorem complete_misses_installed_primary :
    resolve_command cliStale "b" = some "b"
    ∧ "b" ∈ primaryNames cliStale
    ∧ keysOf cliStale.alias_map = []
    ∧ (complete_command cliStale "").1 = ["a"] := by
  decide

/-- C9: dispatching `[name, arg, ...]` with a resolving first token, no help
flag, a synchronous handler and a normally-returning handler run on the
trailing tokens yields exit code 0 and prints nothing. -/
theorem dispatch_success_returns_zero (cli : DynamicCLI) (a0 : String)
    (rest : List String) (r : String) (h : Handler) (h0 : a0 ≠ "--help")
    (h1 : resolve_command cli a0 = some r) (h2 : r ≠ "")
    (h3 : rest.head? ≠ some "--help") (h4 : alookup r cli.commands = some h)
    (h5 : h.run rest = HandlerRes.ok) :
    (run_async cli (a0 :: rest)).exitCode = 0
    ∧ (run_async cli (a0 :: rest)).out = [] := by
  have hd := run_async_dispatch cli a0 rest r h h0 h1 h2 h3 (Or.inl h4)
  rw [hd]
  unfold exec_outcome
  simp only [List.drop_succ_cons, List.drop_zero, h5]
  exact ⟨by trivial, by trivial⟩

/-- C9 witness: the concrete scenario — synchronous `"greet"`, dispatch
`["greet", "Bob"]`, handler succeeds exactly on `["Bob"]`, exit 0. -/
theorem dispatch_success_returns_zero_witness :
    (run_async cliGreetBob ["greet", "Bob"]).exitCode = 0 := by
  have h := dispatch_success_returns_zero cliGreetBob "greet" ["Bob"] "greet" greetProbe
    (by decide) (by decide) (by decide) (by decide) rfl rfl
  exact h.1

/-- C10: the stale-cache scenario. Register `"a"` successfully, call
`list_commands` (filling the cache), then have `register_command "b"` fail on
its colliding alias `"a"`: afterwards `"b"` resolves (it is dispatchable),
while `list_commands` still returns the stale cached `["a"]` that omits it —
the failed call installed the command but never reached the cache
invalidation. -/
theorem failed_register_leaves_stale_cache_and_orphan :
    (register_command (list_commands cliA).2 "b" okHandler false ["a"] none).2
        = some "Alias 'a' conflicts with an existing command or alias."
    ∧ resolve_command cliStale "b" = some "b"
    ∧ (list_commands cliStale).1 = ["a"]
    ∧ "b" ∉ (list_commands cliStale).1 := by
  decide

end FlexCLI
